import Mathlib

/-!
Verification development for the user-provisioning tool
(`nutzerverwaltungstool`): a shallow embedding of the Nextcloud table
decoder, the canonical-user extractor, and the Keycloak/GitLab
reconciliation passes, together with theorems about their behaviour.
-/

namespace NVT

/-! ## Cell model (src/nextcloud_table.rs) -/

/-- `NextcloudTableCell`: a decoded table cell. -/
inductive NextcloudTableCell where
  | bool (b : Bool)
  | str (s : String)
  | list (l : List String)
deriving Repr, DecidableEq

/-- One option of a Selection column. -/
structure SelectionOptions where
  id : Nat
  label : String
deriving Repr, DecidableEq

/-- Subtype of a Selection column. -/
inductive SelectionType where
  | Single
  | Multi
  | Check
deriving Repr, DecidableEq

/-- A column description from the table scheme. -/
inductive ColumnScheme where
  | Text (id : Nat) (title : String)
  | Selection (id : Nat) (title : String) (subtype : SelectionType)
      (selectionOptions : List SelectionOptions)
deriving Repr, DecidableEq

/-- Raw cell data in a row; `number` carries an `i64`, modelled as `Int`. -/
inductive ColumnData where
  | list (column_id : Nat) (value : List Nat)
  | number (column_id : Nat) (value : Int)
  | text (column_id : Nat) (value : String)
deriving Repr, DecidableEq

def ColumnData.column_id : ColumnData → Nat
  | .list cid _ => cid
  | .number cid _ => cid
  | .text cid _ => cid

/-- One raw row (named `Column` in the source). -/
structure Column where
  data : List ColumnData
deriving Repr, DecidableEq

/-- The table scheme: a title and the column descriptions. -/
structure TableScheme where
  title : String
  columns : List ColumnScheme
deriving Repr, DecidableEq

/-- Wrapper around the scheme, as in the OCS response. -/
structure SchemeResponse where
  data : TableScheme
deriving Repr, DecidableEq

/-! ## HashMap model

A decoded row is a `HashMap<String, NextcloudTableCell>` in the source.
We model it as an association list with at most one binding per key,
maintained by insert-with-overwrite; `get` and `remove` act by key, so
the bucket order a hash map would impose is irrelevant. -/

abbrev RowMap := List (String × NextcloudTableCell)

/-- `HashMap::insert` semantics: overwrite the binding if the key is
present, otherwise append a new binding. -/
def hmInsert : RowMap → String → NextcloudTableCell → RowMap
  | [], k, v => [(k, v)]
  | (k', v') :: rest, k, v =>
    if k' = k then (k, v) :: rest else (k', v') :: hmInsert rest k v

/-- `HashMap::get` semantics: the binding for the key, if any. -/
def hmGet : RowMap → String → Option NextcloudTableCell
  | [], _ => none
  | (k', v') :: rest, k => if k' = k then some v' else hmGet rest k

/-- Deletion part of `HashMap::remove`: the map without the binding. -/
def hmErase (m : RowMap) (k : String) : RowMap :=
  m.filter (fun p => p.1 ≠ k)

/-- `HashMap::remove` semantics: the removed binding and the map without it. -/
def hmRemove (m : RowMap) (k : String) : Option NextcloudTableCell × RowMap :=
  (hmGet m k, hmErase m k)

/-- The cast `value as u64` applied to an `i64`: wrap modulo `2 ^ 64`. -/
def intAsU64 (v : Int) : Nat := (v % (2 ^ 64 : Int)).toNat

/-- Resolution of one raw cell against the scheme: find the column with the
cell's id, then match (column kind, payload shape) as in
`parse_nextcloud_table`'s inner `filter_map`. Unrecognized combinations
yield `none` (the cell is dropped). -/
def decodeCell (columns : List ColumnScheme) (c : ColumnData) :
    Option (String × NextcloudTableCell) :=
  match columns.find? (fun cs =>
      match cs with
      | .Text id _ => id == c.column_id
      | .Selection id _ _ _ => id == c.column_id) with
  | none => none
  | some column =>
    match column, c with
    | .Text _ title, .text _ value => some (title, .str value)
    | .Selection _ title .Check _, .text _ value =>
      if value == "true" || value == "false" then
        some (title, .bool (value == "true"))
      else none
    | .Selection _ title .Single opts, .number _ value =>
      (opts.find? (fun o => o.id == intAsU64 value)).map
        (fun s => (title, .str s.label))
    | .Selection _ title .Multi opts, .list _ value =>
      some (title, .list (value.filterMap (fun v =>
        (opts.find? (fun o => o.id == v)).map (fun s => s.label))))
    | _, _ => none

/-- `parse_nextcloud_table`: decode every row; each row's recognized cells
are collected into a map keyed by column title. -/
def parse_nextcloud_table (columns : List Column) (scheme : SchemeResponse) :
    List RowMap :=
  columns.map (fun r =>
    (r.data.filterMap (decodeCell scheme.data.columns)).foldl
      (fun m p => hmInsert m p.1 p.2) [])

/-! ## Canonical user model (src/main.rs) -/

/-- `UserConfig`: the canonical user record. -/
structure UserConfig where
  first_name : Option String
  last_name : Option String
  email : Option String
  matrix_id : Option String
  roles : List String
  enabled : Bool
deriving Repr, DecidableEq

/-! ## Canonical user extraction (get_user_configs) -/

/-- The per-row closure of `get_user_configs`: reads the identifier from
"Funktionskennung" without removing it, then removes "Vorname",
"Nachname", "Funktionskennung" and "Funktion" in turn, building the
record; the roles list keeps the base roles, appends one
`"{Fachschaft} - {role}"` per base role, then appends the bare
"Fachschaft" value. Any missing or wrongly-typed field drops the row. -/
def extractUser (b : RowMap) : Option (String × UserConfig) :=
  match hmGet b "Funktionskennung" with
  | some (.str ident) =>
    match hmGet b "Vorname" with
    | some (.str vn) =>
      match hmGet (hmErase b "Vorname") "Nachname" with
      | some (.str nn) =>
        match hmGet (hmErase (hmErase b "Vorname") "Nachname")
            "Funktionskennung" with
        | some (.str fk) =>
          match hmGet (hmErase (hmErase (hmErase b "Vorname") "Nachname")
              "Funktionskennung") "Funktion" with
          | some (.list l) =>
            let b4 := hmErase (hmErase (hmErase (hmErase b "Vorname")
              "Nachname") "Funktionskennung") "Funktion"
            let derived := l.filterMap (fun role =>
              match hmGet b4 "Fachschaft" with
              | some (.str s) => some (s ++ " - " ++ role)
              | _ => none)
            match hmGet b4 "Fachschaft" with
            | some (.str s) =>
              some (ident,
                { first_name := some vn
                  last_name := some nn
                  email := some (fk ++ "@hhu.de")
                  matrix_id := none
                  roles := (l ++ derived) ++ [s]
                  enabled := true })
            | _ => none
          | _ => none
        | _ => none
      | _ => none
    | _ => none
  | _ => none

/-- The fold step of `get_user_configs`: `entry(user_id)` followed by
`and_modify` (append the new roles to the existing entry) `or_insert`. -/
def mergeEntry : List (String × UserConfig) → String → UserConfig →
    List (String × UserConfig)
  | [], uid, cfg => [(uid, cfg)]
  | (k, c) :: rest, uid, cfg =>
    if k = uid then (k, { c with roles := c.roles ++ cfg.roles }) :: rest
    else (k, c) :: mergeEntry rest uid cfg

/-- The merging fold over the extracted `(user_id, user_config)` pairs. -/
def merge_user_configs (pairs : List (String × UserConfig)) :
    List (String × UserConfig) :=
  pairs.foldl (fun map p => mergeEntry map p.1 p.2) []

/-- `get_user_configs` (the pure part, after the rows were fetched and
decoded): extract a user per admissible row and merge by identifier. -/
def get_user_configs (rows : List RowMap) : List (String × UserConfig) :=
  merge_user_configs (rows.filterMap extractUser)

/-- Association-list lookup (first binding wins). -/
def alookup {α : Type} : List (String × α) → String → Option α
  | [], _ => none
  | (k, v) :: rest, key => if k = key then some v else alookup rest key

/-! ## Keycloak model (src/services/keycloak.rs)

The desired state is a `HashMap<String, UserConfig>`; we model it as an
association list of `(username, config)` pairs. `KeycloakUser` is the
provider-side actual-state record. -/

/-- A realm role as returned by Keycloak. -/
structure KeycloakRole where
  id : String
  name : String
deriving Repr, DecidableEq

/-- An actual-state user record from Keycloak. -/
structure KeycloakUser where
  id : String
  username : String
  email : Option String
  first_name : Option String
  last_name : Option String
  enabled : Bool
deriving Repr, DecidableEq

/-- `users_to_create` in `KeycloakConfig::configure`: desired entries whose
username matches no actual user. -/
def users_to_create (users : List (String × UserConfig))
    (keycloak_users : List KeycloakUser) : List (String × UserConfig) :=
  users.filter (fun user => !(keycloak_users.any (fun k => user.1 == k.username)))

/-- `users_to_update`: actual users whose username is a desired key. -/
def users_to_update (users : List (String × UserConfig))
    (keycloak_users : List KeycloakUser) : List KeycloakUser :=
  keycloak_users.filter (fun k => users.any (fun user => user.1 == k.username))

/-- `users_to_delete`: actual users whose username is no desired key. -/
def users_to_delete (users : List (String × UserConfig))
    (keycloak_users : List KeycloakUser) : List KeycloakUser :=
  keycloak_users.filter (fun k => !(users.any (fun user => user.1 == k.username)))

/-- The role names for which the catalog phase of `update_roles` issues a
`create_realm_role` call, in iteration order: every occurrence of a role
name across all desired users' role lists that is absent from the catalog
snapshot (no deduplication is performed). -/
def catalog_role_creates (user_configs : List (String × UserConfig))
    (keycloak_roles : List KeycloakRole) : List String :=
  ((user_configs.map (fun p => p.2.roles)).flatten).filter
    (fun r => !(keycloak_roles.any (fun kr => kr.name == r)))

/-- `KeycloakClient::roles_to_add`: catalog roles named in the config and
not already assigned. -/
def roles_to_add (config_roles : List String)
    (keycloak_roles existing_roles : List KeycloakRole) : List KeycloakRole :=
  (keycloak_roles.filter (fun role => config_roles.contains role.name)).filter
    (fun role => !(existing_roles.contains role))

/-- `KeycloakClient::roles_to_remove`: assigned roles not named in the
config (the call site passes the user's existing roles as second
argument). -/
def roles_to_remove (config_roles : List String)
    (keycloak_roles : List KeycloakRole) : List KeycloakRole :=
  keycloak_roles.filter (fun role => !(config_roles.contains role.name))

/-! ### Assignment-phase failure model

Each network call of the assignment phase may fail at the transport layer
(the `?` on `send().await`); the oracle returns `Except` accordingly.
Events record which calls were issued. -/

/-- One issued call of the per-user assignment phase. -/
inductive RoleEvent where
  | fetch (username : String)
  | addCall (user_id : String) (roles : List KeycloakRole)
  | removeCall (user_id : String) (roles : List KeycloakRole)
deriving Repr, DecidableEq

/-- Transport-level outcomes for the assignment-phase calls. -/
structure RoleOracle where
  fetchRoles : KeycloakUser → Except String (List KeycloakRole)
  addRoles : String → List KeycloakRole → Except String Unit
  removeRoles : String → List KeycloakRole → Except String Unit

/-- `update_user_roles`: POST the additions only when non-empty (a non-2xx
status there is only logged, not fatal), then DELETE the removals
unconditionally; a transport failure of either call aborts. Returns the
issued calls and the first transport error, if any. -/
def update_user_roles (o : RoleOracle) (user_id : String)
    (ra rr : List KeycloakRole) : List RoleEvent × Option String :=
  if ra.isEmpty then
    match o.removeRoles user_id rr with
    | .ok _ => ([.removeCall user_id rr], none)
    | .error e => ([.removeCall user_id rr], some e)
  else
    match o.addRoles user_id ra with
    | .error e => ([.addCall user_id ra], some e)
    | .ok _ =>
      match o.removeRoles user_id rr with
      | .ok _ => ([.addCall user_id ra, .removeCall user_id rr], none)
      | .error e => ([.addCall user_id ra, .removeCall user_id rr], some e)

/-- The body of one iteration of the per-user loop of `update_roles`:
fetch the user's assigned roles, diff against the configuration, and
apply through `update_user_roles`; either awaited call can fail. The
indexing `user_configs[&user.username]` presumes the key is present
(guaranteed at the call site, where the loop runs over
`users_to_update`); an absent key is modelled as an empty role list
here. -/
def process_user_roles (o : RoleOracle)
    (user_configs : List (String × UserConfig))
    (keycloak_roles : List KeycloakRole) (u : KeycloakUser) :
    List RoleEvent × Option String :=
  match o.fetchRoles u with
  | .error e => ([.fetch u.username], some e)
  | .ok existing =>
    let configured := ((alookup user_configs u.username).map
      (fun c => c.roles)).getD []
    let applied := update_user_roles o u.id
      (roles_to_add configured keycloak_roles existing)
      (roles_to_remove configured existing)
    (.fetch u.username :: applied.1, applied.2)

/-- The per-user loop of `update_roles` (after the catalog phase): the `?`
operator propagates the first failure, skipping every later user. -/
def update_roles_loop (o : RoleOracle)
    (user_configs : List (String × UserConfig))
    (keycloak_roles : List KeycloakRole) :
    List KeycloakUser → List RoleEvent × Option String
  | [] => ([], none)
  | u :: rest =>
    match process_user_roles o user_configs keycloak_roles u with
    | (evs, some e) => (evs, some e)
    | (evs, none) =>
      let next := update_roles_loop o user_configs keycloak_roles rest
      (evs ++ next.1, next.2)

/-- The usernames for which a fetch call was issued, in order. -/
def fetchedUsers (evs : List RoleEvent) : List String :=
  evs.filterMap (fun e =>
    match e with
    | .fetch u => some u
    | _ => none)

/-! ### Apply-pass operation trace

`KeycloakConfig::configure` runs `create_users`, then `update_users`,
then `update_roles`, then `delete_users`, each awaited with `?`. The
trace below records the mutating calls issued on the success path, with
the per-user role fetches of the assignment phase parametrized by the
backend's answers. -/

/-- One mutating (or role-phase) operation issued during the apply pass. -/
inductive KOp where
  | createUser (username : String)
  | updateUser (user_id : String)
  | createRole (name : String)
  | fetchUserRoles (username : String)
  | addRolesOp (user_id : String)
  | removeRolesOp (user_id : String)
  | deleteUser (user_id : String)
deriving Repr, DecidableEq

/-- Classification: a user-creation operation. -/
def KOp.isCreate : KOp → Bool
  | .createUser _ => true
  | _ => false

/-- Classification: an update or role-phase operation. -/
def KOp.isUpdateOrRole : KOp → Bool
  | .updateUser _ => true
  | .createRole _ => true
  | .fetchUserRoles _ => true
  | .addRolesOp _ => true
  | .removeRolesOp _ => true
  | _ => false

/-- Classification: a user-deletion operation. -/
def KOp.isDelete : KOp → Bool
  | .deleteUser _ => true
  | _ => false

/-- Trace of `create_users`: one POST per desired entry to create. -/
def create_users_trace (users : List (String × UserConfig)) : List KOp :=
  users.map (fun u => .createUser u.1)

/-- Trace of `update_users`: one PUT per matched user. -/
def update_users_trace (users : List KeycloakUser) : List KOp :=
  users.map (fun u => .updateUser u.id)

/-- Trace of `delete_users`: one DELETE per unmatched actual user. -/
def delete_users_trace (users : List KeycloakUser) : List KOp :=
  users.map (fun u => .deleteUser u.id)

/-- Trace of `update_roles` on the success path: the catalog-phase
`create_realm_role` calls, then per matched user a roles fetch, an
additions POST when the additions are non-empty, and the removals
DELETE. `existingOf` gives the backend's answer to each roles fetch. -/
def update_roles_trace (existingOf : KeycloakUser → List KeycloakRole)
    (user_configs : List (String × UserConfig))
    (keycloak_roles_refreshed : List KeycloakRole)
    (users : List KeycloakUser) : List KOp :=
  (catalog_role_creates user_configs keycloak_roles_refreshed).map .createRole
    ++ (users.map (fun u =>
      let configured := ((alookup user_configs u.username).map
        (fun c => c.roles)).getD []
      let ra := roles_to_add configured keycloak_roles_refreshed (existingOf u)
      .fetchUserRoles u.username ::
        ((if ra.isEmpty then [] else [.addRolesOp u.id]) ++
          [.removeRolesOp u.id]))).flatten

/-- Trace of the whole `KeycloakConfig::configure` apply pass on the
success path: creates, then updates, then the role phase, then deletes —
the order of the four awaited calls in the source. -/
def keycloak_configure_trace (users : List (String × UserConfig))
    (keycloak_users : List KeycloakUser)
    (existingOf : KeycloakUser → List KeycloakRole)
    (keycloak_roles_refreshed : List KeycloakRole) : List KOp :=
  create_users_trace (users_to_create users keycloak_users)
    ++ update_users_trace (users_to_update users keycloak_users)
    ++ update_roles_trace existingOf users keycloak_roles_refreshed
      (users_to_update users keycloak_users)
    ++ delete_users_trace (users_to_delete users keycloak_users)

/-! ### Update request body (update_user) -/

/-- The JSON body `update_user` PUTs for a matched user. -/
structure KeycloakUpdateBody where
  firstName : Option String
  lastName : Option String
  email : Option String
  enabled : Bool
  username : String
deriving Repr, DecidableEq

/-- Body construction in `update_user`: names, email and enabled flag come
from the desired config, the username from the existing provider user. -/
def update_user_body (user : KeycloakUser) (user_config : UserConfig) :
    KeycloakUpdateBody :=
  { firstName := user_config.first_name
    lastName := user_config.last_name
    email := user_config.email
    enabled := user_config.enabled
    username := user.username }

/-- `update_users`: one `(target user id, body)` per user, looking the
config up by username (the source indexes the map, which presumes the key
is present; a missing key is a panic, modelled as `none`). -/
def update_users_bodies :
    List KeycloakUser → List (String × UserConfig) →
    Option (List (String × KeycloakUpdateBody))
  | [], _ => some []
  | user :: rest, user_configs =>
    match alookup user_configs user.username with
    | none => none
    | some cfg =>
      match update_users_bodies rest user_configs with
      | none => none
      | some bs => some ((user.id, update_user_body user cfg) :: bs)

/-! ## GitLab model (src/services/gitlab.rs) -/

/-- Configuration of the GitLab backend. -/
structure GitLabConfig where
  token : String
  url : String
  group_id : Nat
  owner_role : String
  maintainer_role : String
deriving Repr, DecidableEq

/-- A GitLab user record (actual state / username-search result). -/
structure GitlabUser where
  id : Nat
  username : String
deriving Repr, DecidableEq

/-- The eligibility filter of `GitLabConfig::configure`: keep desired
entries having at least one role equal to the configured maintainer or
owner role. -/
def gitlab_eligible (cfg : GitLabConfig)
    (user_configs : List (String × UserConfig)) :
    List (String × UserConfig) :=
  user_configs.filter (fun user =>
    user.2.roles.any (fun r => r == cfg.maintainer_role || r == cfg.owner_role))

/-- Resolution of the eligible desired entries to GitLab users: each
username is searched (`resolve` returns the query result, `none` on a
query failure, which the source's `.ok()` skips), and `pop` takes the
last element of the result vector. -/
def gitlab_resolved (resolve : String → Option (List GitlabUser))
    (eligible : List (String × UserConfig)) : List GitlabUser :=
  (eligible.filterMap (fun user => resolve user.1)).filterMap
    (fun v => v.getLast?)

/-- Partition of the current group members: those contained in the
resolved desired list are updated. -/
def gitlab_users_to_update (users members : List GitlabUser) :
    List GitlabUser :=
  members.filter (fun m => users.contains m)

/-- Members not contained in the resolved desired list are removed. -/
def gitlab_users_to_remove (users members : List GitlabUser) :
    List GitlabUser :=
  members.filter (fun m => !(users.contains m))

/-- Resolved desired users not already matched to a member are added. -/
def gitlab_users_to_create (users members : List GitlabUser) :
    List GitlabUser :=
  users.filter (fun u => !((gitlab_users_to_update users members).contains u))

/-! ## Scenario inputs for the end-to-end extraction test (spec section 8) -/

/-- The scheme of the end-to-end scenario: Text "Vorname" (id 1),
Multi-selection "Funktion" (id 2, options 10 ↦ "Admin"), and Text columns
"Funktionskennung" (id 3), "Nachname" (id 4), "Fachschaft" (id 5). -/
def scenarioScheme : SchemeResponse :=
  ⟨⟨"t", [.Text 1 "Vorname",
          .Selection 2 "Funktion" .Multi [⟨10, "Admin"⟩],
          .Text 3 "Funktionskennung",
          .Text 4 "Nachname",
          .Text 5 "Fachschaft"]⟩⟩

/-- The single raw row of the end-to-end scenario: "Jane", [10], "jdoe",
"Doe", "CS". -/
def scenarioRow : Column :=
  ⟨[.text 1 "Jane", .list 2 [10], .text 3 "jdoe", .text 4 "Doe",
    .text 5 "CS"]⟩

/-! ## Concrete fixtures used to instantiate the universal theorems -/

/-- A canonical user record with the given roles and no other data. -/
def mkConfig (roles : List String) : UserConfig :=
  { first_name := none, last_name := none, email := none,
    matrix_id := none, roles := roles, enabled := true }

/-- A Keycloak actual-state record with the given id and username. -/
def mkKcUser (id username : String) : KeycloakUser :=
  { id := id, username := username, email := none, first_name := none,
    last_name := none, enabled := true }

/-- A GitLab backend configuration with owner role "own" and maintainer
role "maint". -/
def glCfg : GitLabConfig :=
  { token := "t", url := "u", group_id := 7,
    owner_role := "own", maintainer_role := "maint" }

/-- Desired users for the GitLab fixture: "a" holds the owner role, "b"
holds no eligible role. -/
def glConfigs : List (String × UserConfig) :=
  [("a", mkConfig ["own"]), ("b", mkConfig ["other"])]

/-- Username resolution for the GitLab fixture. -/
def glResolve (k : String) : Option (List GitlabUser) :=
  if k == "a" then some [⟨1, "a"⟩] else some [⟨2, "b"⟩]

/-- A role oracle whose roles fetch fails for username "b" only. -/
def failingOracle : RoleOracle :=
  { fetchRoles := fun u =>
      if u.username == "b" then .error "boom" else .ok []
    addRoles := fun _ _ => .ok ()
    removeRoles := fun _ _ => .ok () }

/-! # Theorems -/

/-! ## Claim C1 -/

/-- Claim C1 counterexample: on the end-to-end scenario of spec section 8
the extractor emits exactly one user "jdoe", but its roles list is
`["Admin", "CS - Admin", "CS"]`, not `["CS - Admin", "CS"]` as the claim
states: the base role "Admin" is retained, not replaced. -/
theorem c1_scenario_roles_counterexample :
    (get_user_configs (parse_nextcloud_table [scenarioRow] scenarioScheme)).map
      (fun p => p.2.roles) = [["Admin", "CS - Admin", "CS"]] ∧
    ¬ ((get_user_configs (parse_nextcloud_table [scenarioRow]
      scenarioScheme)).map (fun p => p.2.roles) = [["CS - Admin", "CS"]]) := by
  constructor
  · rfl
  · decide

/-- Claim C1 (amended): the end-to-end scenario produces exactly one
canonical user with identifier "jdoe", first name "Jane", last name
"Doe", email "jdoe@hhu.de", enabled, and roles exactly
`["Admin", "CS - Admin", "CS"]`: the base roles are retained, each
"{Fachschaft} - {role}" derivation is appended after them, and the bare
Fachschaft value is appended once at the end. -/
theorem c1_scenario_extraction :
    get_user_configs (parse_nextcloud_table [scenarioRow] scenarioScheme) =
      [("jdoe",
        { first_name := some "Jane"
          last_name := some "Doe"
          email := some "jdoe@hhu.de"
          matrix_id := none
          roles := ["Admin", "CS - Admin", "CS"]
          enabled := true })] := by
  rfl

/-! ## Claim C2 -/

/-- Count of an element in a filtered list: the filter either keeps every
occurrence or removes every occurrence. -/
theorem count_filter_eq (q : String → Bool) (name : String) :
    ∀ l : List String,
    (l.filter q).count name = if q name then l.count name else 0 := by
  intro l
  induction l with
  | nil => simp
  | cons a l ih =>
    by_cases h : q a = true
    · rw [List.filter_cons_of_pos h, List.count_cons, ih]
      by_cases hq : q name = true
      · simp [hq, List.count_cons]
      · have hn : name ≠ a := fun hEq => by subst hEq; exact hq h
        have hne : (name == a) = false := by simp [hn]
        simp [hq, hne, Ne.symm hn]
    · rw [List.filter_cons_of_neg h, ih]
      by_cases hq : q name = true
      · have hn : name ≠ a := fun hEq => by subst hEq; exact h hq
        have hne : (name == a) = false := by simp [hn]
        simp [hq, hne, List.count_cons, Ne.symm hn]
      · simp [hq]

/-- Claim C2 counterexample: with one desired user whose role list is
`["X", "X"]` and an empty catalog snapshot, the catalog phase issues two
`create_realm_role` calls for "X", although "X" occurs in a desired
user's role list and is absent from the snapshot — not exactly one call
as the claim states. -/
theorem c2_duplicate_role_two_creates :
    ("X" ∈ (([("u",
      { first_name := none, last_name := none, email := none,
        matrix_id := none, roles := ["X", "X"], enabled := true })] :
        List (String × UserConfig)).map (fun p => p.2.roles)).flatten) ∧
    (([] : List KeycloakRole).any (fun kr => kr.name == "X")) = false ∧
    (catalog_role_creates [("u",
      { first_name := none, last_name := none, email := none,
        matrix_id := none, roles := ["X", "X"], enabled := true })]
      []).count "X" = 2 ∧
    ¬ ((catalog_role_creates [("u",
      { first_name := none, last_name := none, email := none,
        matrix_id := none, roles := ["X", "X"], enabled := true })]
      []).count "X" = 1) := by
  refine ⟨by decide, by decide, by decide, by decide⟩

/-- Claim C2 (amended): in the role-catalog phase, every occurrence of a
role name across the desired users' role lists triggers one
`create_realm_role` call when the name is absent from the catalog
snapshot, and none when it is present: a name occurring k times in the
concatenation of all role lists and absent from the snapshot is created
k times, so duplicated names lead to repeated creation calls. -/
theorem c2_catalog_create_multiplicity :
    ∀ (user_configs : List (String × UserConfig))
      (keycloak_roles : List KeycloakRole) (name : String),
    (catalog_role_creates user_configs keycloak_roles).count name =
      if keycloak_roles.any (fun kr => kr.name == name) then 0
      else ((user_configs.map (fun p => p.2.roles)).flatten).count name := by
  intro user_configs keycloak_roles name
  unfold catalog_role_creates
  rw [count_filter_eq]
  by_cases h : keycloak_roles.any (fun kr => kr.name == name)
  · simp [h]
  · simp [h]

/-! ## Claim C3 -/

/-- Membership in the identifiers of `users_to_create`: desired and not
actual. -/
theorem mem_create_ids (users : List (String × UserConfig))
    (kc : List KeycloakUser) (x : String) :
    x ∈ (users_to_create users kc).map (fun p => p.1) ↔
      ((∃ u ∈ users, u.1 = x) ∧ ¬ ∃ k ∈ kc, k.username = x) := by
  simp only [users_to_create, List.mem_map, List.mem_filter,
    Bool.not_eq_true', List.any_eq_false, beq_iff_eq]
  constructor
  · rintro ⟨a, ⟨ha, hall⟩, rfl⟩
    exact ⟨⟨a, ha, rfl⟩, fun ⟨k, hk, hkx⟩ => hall k hk hkx.symm⟩
  · rintro ⟨⟨u, hu, rfl⟩, hnot⟩
    exact ⟨u, ⟨hu, fun k hk he => hnot ⟨k, hk, he.symm⟩⟩, rfl⟩

/-- Membership in the identifiers of `users_to_update`: actual and
desired. -/
theorem mem_update_ids (users : List (String × UserConfig))
    (kc : List KeycloakUser) (x : String) :
    x ∈ (users_to_update users kc).map (fun k => k.username) ↔
      ((∃ k ∈ kc, k.username = x) ∧ ∃ u ∈ users, u.1 = x) := by
  simp only [users_to_update, List.mem_map, List.mem_filter,
    List.any_eq_true, beq_iff_eq]
  constructor
  · rintro ⟨k, ⟨hk, u, hu, hux⟩, rfl⟩
    exact ⟨⟨k, hk, rfl⟩, u, hu, hux⟩
  · rintro ⟨⟨k, hk, rfl⟩, u, hu, hux⟩
    exact ⟨k, ⟨hk, u, hu, hux⟩, rfl⟩

/-- Membership in the identifiers of `users_to_delete`: actual and not
desired. -/
theorem mem_delete_ids (users : List (String × UserConfig))
    (kc : List KeycloakUser) (x : String) :
    x ∈ (users_to_delete users kc).map (fun k => k.username) ↔
      ((∃ k ∈ kc, k.username = x) ∧ ¬ ∃ u ∈ users, u.1 = x) := by
  simp only [users_to_delete, List.mem_map, List.mem_filter,
    Bool.not_eq_true', List.any_eq_false, beq_iff_eq]
  constructor
  · rintro ⟨k, ⟨hk, hall⟩, rfl⟩
    exact ⟨⟨k, hk, rfl⟩, fun ⟨u, hu, hux⟩ => hall u hu hux⟩
  · rintro ⟨⟨k, hk, rfl⟩, hnot⟩
    exact ⟨k, ⟨hk, fun u hu he => hnot ⟨u, hu, he⟩⟩, rfl⟩

/-- Claim C3: the reconciliation plan of `KeycloakConfig::configure` is a
partition by identifier: the identifier sets of `users_to_create`,
`users_to_update` and `users_to_delete` are pairwise disjoint, and their
union equals the union of the desired identifiers and the actual
identifiers. -/
theorem c3_reconciliation_partition :
    ∀ (users : List (String × UserConfig))
      (keycloak_users : List KeycloakUser) (x : String),
    (¬ (x ∈ (users_to_create users keycloak_users).map (fun p => p.1) ∧
        x ∈ (users_to_update users keycloak_users).map
          (fun k => k.username))) ∧
    (¬ (x ∈ (users_to_create users keycloak_users).map (fun p => p.1) ∧
        x ∈ (users_to_delete users keycloak_users).map
          (fun k => k.username))) ∧
    (¬ (x ∈ (users_to_update users keycloak_users).map
          (fun k => k.username) ∧
        x ∈ (users_to_delete users keycloak_users).map
          (fun k => k.username))) ∧
    ((x ∈ (users_to_create users keycloak_users).map (fun p => p.1) ∨
      x ∈ (users_to_update users keycloak_users).map (fun k => k.username) ∨
      x ∈ (users_to_delete users keycloak_users).map (fun k => k.username)) ↔
      (x ∈ users.map (fun p => p.1) ∨
       x ∈ keycloak_users.map (fun k => k.username))) := by
  intro users keycloak_users x
  rw [mem_create_ids, mem_update_ids, mem_delete_ids]
  have hd : x ∈ users.map (fun p => p.1) ↔ ∃ u ∈ users, u.1 = x := by
    simp [List.mem_map]
  have ha : x ∈ keycloak_users.map (fun k => k.username) ↔
      ∃ k ∈ keycloak_users, k.username = x := by
    simp [List.mem_map]
  rw [hd, ha]
  by_cases hD : ∃ u ∈ users, u.1 = x <;>
    by_cases hA : ∃ k ∈ keycloak_users, k.username = x <;>
      simp [hD, hA]

/-! ## Claim C4 -/

/-- Claim C4: for every plan with non-empty create, update and delete
sets, the apply pass of `KeycloakConfig::configure` issues its operations
as a concatenation of a non-empty all-creates segment, then a non-empty
segment of updates and role-phase operations, then a non-empty
all-deletes segment — creates first, then updates and role assignment,
then deletes. -/
theorem c4_apply_ordering (users : List (String × UserConfig))
    (keycloak_users : List KeycloakUser)
    (existingOf : KeycloakUser → List KeycloakRole)
    (keycloak_roles_refreshed : List KeycloakRole)
    (h1 : users_to_create users keycloak_users ≠ [])
    (h2 : users_to_update users keycloak_users ≠ [])
    (h3 : users_to_delete users keycloak_users ≠ []) :
    ∃ A B C,
      keycloak_configure_trace users keycloak_users existingOf
        keycloak_roles_refreshed = A ++ B ++ C ∧
      A ≠ [] ∧ B ≠ [] ∧ C ≠ [] ∧
      (∀ op ∈ A, op.isCreate = true) ∧
      (∀ op ∈ B, op.isUpdateOrRole = true) ∧
      (∀ op ∈ C, op.isDelete = true) := by
  refine ⟨create_users_trace (users_to_create users keycloak_users),
    update_users_trace (users_to_update users keycloak_users)
      ++ update_roles_trace existingOf users keycloak_roles_refreshed
        (users_to_update users keycloak_users),
    delete_users_trace (users_to_delete users keycloak_users),
    ?_, ?_, ?_, ?_, ?_, ?_, ?_⟩
  · simp [keycloak_configure_trace, List.append_assoc]
  · simp [create_users_trace, h1]
  · intro hB
    rcases List.append_eq_nil.mp hB with ⟨hu, _⟩
    exact h2 (by simpa [update_users_trace] using hu)
  · simp [delete_users_trace, h3]
  · intro op hop
    rcases List.mem_map.mp hop with ⟨u, _, rfl⟩
    rfl
  · intro op hop
    rcases List.mem_append.mp hop with h | h
    · rcases List.mem_map.mp h with ⟨u, _, rfl⟩
      rfl
    · rcases List.mem_append.mp h with h' | h'
      · rcases List.mem_map.mp h' with ⟨n, _, rfl⟩
        rfl
      · rcases List.mem_flatten.mp h' with ⟨block, hblock, hopb⟩
        rcases List.mem_map.mp hblock with ⟨u, _, rfl⟩
        rcases List.mem_cons.mp hopb with rfl | hrest
        · rfl
        · rcases List.mem_append.mp hrest with h'' | h''
          · by_cases hra : (roles_to_add (((alookup users u.username).map
                (fun c => c.roles)).getD []) keycloak_roles_refreshed
                (existingOf u)).isEmpty
            · simp [hra] at h''
            · simp only [hra, if_neg, Bool.false_eq_true, if_false] at h''
              rcases List.mem_singleton.mp h'' with rfl
              rfl
          · rcases List.mem_singleton.mp h'' with rfl
            rfl
  · intro op hop
    rcases List.mem_map.mp hop with ⟨u, _, rfl⟩
    rfl

/-- Witness for claim C4: a concrete plan with one user to create
("c"), one to update ("a") and one to delete ("b"), on which the apply
trace decomposes into non-empty create, update-and-role, and delete
segments. -/
theorem c4_apply_ordering_witness :
    (users_to_create
        [("a", { first_name := none, last_name := none, email := none,
                 matrix_id := none, roles := [], enabled := true }),
         ("c", { first_name := none, last_name := none, email := none,
                 matrix_id := none, roles := [], enabled := true })]
        [{ id := "1", username := "a", email := none, first_name := none,
           last_name := none, enabled := true },
         { id := "2", username := "b", email := none, first_name := none,
           last_name := none, enabled := true }] ≠ []) ∧
    (users_to_update
        [("a", { first_name := none, last_name := none, email := none,
                 matrix_id := none, roles := [], enabled := true }),
         ("c", { first_name := none, last_name := none, email := none,
                 matrix_id := none, roles := [], enabled := true })]
        [{ id := "1", username := "a", email := none, first_name := none,
           last_name := none, enabled := true },
         { id := "2", username := "b", email := none, first_name := none,
           last_name := none, enabled := true }] ≠ []) ∧
    (users_to_delete
        [("a", { first_name := none, last_name := none, email := none,
                 matrix_id := none, roles := [], enabled := true }),
         ("c", { first_name := none, last_name := none, email := none,
                 matrix_id := none, roles := [], enabled := true })]
        [{ id := "1", username := "a", email := none, first_name := none,
           last_name := none, enabled := true },
         { id := "2", username := "b", email := none, first_name := none,
           last_name := none, enabled := true }] ≠ []) ∧
    (∃ A B C,
      keycloak_configure_trace
        [("a", { first_name := none, last_name := none, email := none,
                 matrix_id := none, roles := [], enabled := true }),
         ("c", { first_name := none, last_name := none, email := none,
                 matrix_id := none, roles := [], enabled := true })]
        [{ id := "1", username := "a", email := none, first_name := none,
           last_name := none, enabled := true },
         { id := "2", username := "b", email := none, first_name := none,
           last_name := none, enabled := true }]
        (fun _ => []) [] = A ++ B ++ C ∧
      A ≠ [] ∧ B ≠ [] ∧ C ≠ [] ∧
      (∀ op ∈ A, op.isCreate = true) ∧
      (∀ op ∈ B, op.isUpdateOrRole = true) ∧
      (∀ op ∈ C, op.isDelete = true)) :=
  ⟨by decide, by decide, by decide,
    c4_apply_ordering _ _ _ _ (by decide) (by decide) (by decide)⟩

/-! ## Claim C5 -/

/-- `update_user_roles` issues no roles fetch: its events are only the
additions POST and the removals DELETE. -/
theorem fetchedUsers_update_user_roles (o : RoleOracle) (uid : String)
    (ra rr : List KeycloakRole) :
    fetchedUsers (update_user_roles o uid ra rr).1 = [] := by
  unfold update_user_roles
  by_cases h : ra.isEmpty = true
  · rw [if_pos h]
    cases hr : o.removeRoles uid rr with
    | ok v => rfl
    | error e => rfl
  · rw [if_neg h]
    cases ha : o.addRoles uid ra with
    | error e => rfl
    | ok v =>
      cases hr : o.removeRoles uid rr with
      | ok v2 => rfl
      | error e => rfl

/-- Processing one user issues exactly one roles fetch, for that user,
whether or not one of its calls fails. -/
theorem fetchedUsers_process_user (o : RoleOracle)
    (user_configs : List (String × UserConfig))
    (keycloak_roles : List KeycloakRole) (u : KeycloakUser) :
    fetchedUsers (process_user_roles o user_configs keycloak_roles u).1 =
      [u.username] := by
  unfold process_user_roles
  cases hf : o.fetchRoles u with
  | error e => rfl
  | ok existing =>
    have h2 := fetchedUsers_update_user_roles o u.id
      (roles_to_add (((alookup user_configs u.username).map
        (fun c => c.roles)).getD []) keycloak_roles existing)
      (roles_to_remove (((alookup user_configs u.username).map
        (fun c => c.roles)).getD []) existing)
    simp only [fetchedUsers, List.filterMap_cons] at h2 ⊢
    simp [h2]

/-- The fetch events of concatenated event lists concatenate. -/
theorem fetchedUsers_append (a b : List RoleEvent) :
    fetchedUsers (a ++ b) = fetchedUsers a ++ fetchedUsers b := by
  simp [fetchedUsers, List.filterMap_append]

/-- Claim C5: in the per-user assignment phase, the first failing
operation aborts the rest of the pass: on success every listed user is
processed (fetched) exactly once in order, and on failure the processed
users are exactly the first k + 1 listed users for some k — no user
after the failing one is touched, and none is retried. -/
theorem c5_first_failure_aborts :
    ∀ (o : RoleOracle) (user_configs : List (String × UserConfig))
      (keycloak_roles : List KeycloakRole) (users : List KeycloakUser),
    ((update_roles_loop o user_configs keycloak_roles users).2 = none →
      fetchedUsers
        (update_roles_loop o user_configs keycloak_roles users).1 =
        users.map (fun u => u.username)) ∧
    (∀ e,
      (update_roles_loop o user_configs keycloak_roles users).2 = some e →
      ∃ k, k < users.length ∧
        fetchedUsers
          (update_roles_loop o user_configs keycloak_roles users).1 =
          (users.take (k + 1)).map (fun u => u.username)) := by
  intro o ucfg kr users
  induction users with
  | nil =>
    exact ⟨fun _ => rfl, fun e he => by simp [update_roles_loop] at he⟩
  | cons u rest ih =>
    rcases hp : process_user_roles o ucfg kr u with ⟨evs, err⟩
    have hfe : fetchedUsers evs = [u.username] := by
      have h := fetchedUsers_process_user o ucfg kr u
      rw [hp] at h
      exact h
    cases err with
    | some e0 =>
      constructor
      · intro hnone
        simp [update_roles_loop, hp] at hnone
      · intro e he
        refine ⟨0, by simp, ?_⟩
        simp [update_roles_loop, hp, hfe]
    | none =>
      have hloop : update_roles_loop o ucfg kr (u :: rest) =
          (evs ++ (update_roles_loop o ucfg kr rest).1,
           (update_roles_loop o ucfg kr rest).2) := by
        simp [update_roles_loop, hp]
      constructor
      · intro hnone
        rw [hloop] at hnone ⊢
        simp only at hnone
        have h1 := ih.1 hnone
        simp [fetchedUsers_append, hfe, h1]
      · intro e he
        rw [hloop] at he ⊢
        simp only at he
        obtain ⟨k, hk, hfk⟩ := ih.2 e he
        refine ⟨k + 1, by simpa using Nat.succ_lt_succ hk, ?_⟩
        simp [fetchedUsers_append, hfe, hfk, List.take_succ_cons]

/-- Witness for claim C5: two users where the roles fetch of the second
fails; the run reports the failure and the processed users are exactly
the first two (k = 1). -/
theorem c5_first_failure_aborts_witness :
    ((update_roles_loop
        { fetchRoles := fun u =>
            if u.username == "b" then .error "boom" else .ok []
          addRoles := fun _ _ => .ok ()
          removeRoles := fun _ _ => .ok () }
        [] []
        [{ id := "1", username := "a", email := none, first_name := none,
           last_name := none, enabled := true },
         { id := "2", username := "b", email := none, first_name := none,
           last_name := none, enabled := true }]).2 = some "boom") ∧
    (∃ k, k < 2 ∧
      fetchedUsers
        (update_roles_loop
          { fetchRoles := fun u =>
              if u.username == "b" then .error "boom" else .ok []
            addRoles := fun _ _ => .ok ()
            removeRoles := fun _ _ => .ok () }
          [] []
          [{ id := "1", username := "a", email := none, first_name := none,
             last_name := none, enabled := true },
           { id := "2", username := "b", email := none, first_name := none,
             last_name := none, enabled := true }]).1 =
        (([{ id := "1", username := "a", email := none, first_name := none,
             last_name := none, enabled := true },
           { id := "2", username := "b", email := none, first_name := none,
             last_name := none, enabled := true }] :
            List KeycloakUser).take (k + 1)).map (fun u => u.username)) := by
  refine ⟨by decide, ?_⟩
  have h := (c5_first_failure_aborts
    { fetchRoles := fun u =>
        if u.username == "b" then .error "boom" else .ok []
      addRoles := fun _ _ => .ok ()
      removeRoles := fun _ _ => .ok () }
    [] []
    [{ id := "1", username := "a", email := none, first_name := none,
       last_name := none, enabled := true },
     { id := "2", username := "b", email := none, first_name := none,
       last_name := none, enabled := true }]).2 "boom" (by decide)
  simpa using h

/-! ## Claim C6 -/

/-- Id-by-id resolution of a Multi-selection payload equals: keep exactly
the ids that resolve against the option set, in input order, and map each
to its option's label. -/
theorem filterMap_resolve_eq (opts : List SelectionOptions)
    (value : List Nat) :
    value.filterMap (fun v =>
        (opts.find? (fun o => o.id == v)).map (fun s => s.label)) =
      (value.filter (fun v =>
        (opts.find? (fun o => o.id == v)).isSome)).map
        (fun v => (((opts.find? (fun o => o.id == v)).map
          (fun s => s.label)).getD "")) := by
  induction value with
  | nil => rfl
  | cons v vs ih =>
    rw [List.filterMap_cons, List.filter_cons]
    cases h : opts.find? (fun o => o.id == v) with
    | none => simp [h, ih]
    | some s => simp [h, ih]

/-- Decoding one Multi-selection cell always produces a `list` cell (the
cell is never dropped), holding one label per resolvable id. -/
theorem decodeCell_multi (cid : Nat) (colTitle : String)
    (opts : List SelectionOptions) (value : List Nat) :
    decodeCell [.Selection cid colTitle .Multi opts] (.list cid value) =
      some (colTitle, .list (value.filterMap (fun v =>
        (opts.find? (fun o => o.id == v)).map (fun s => s.label)))) := by
  unfold decodeCell
  rw [List.find?_cons_of_pos _ (by simp [ColumnData.column_id])]

/-- Claim C6: a Multi-selection cell resolves each referenced option id
independently — the decoded cell is always present as a `list`, holding
the labels of exactly the resolvable ids in input order (unresolved ids
are individually skipped) — and in particular payload `[1, 99, 2]`
against options `{1 ↦ "A", 2 ↦ "B"}` decodes to `list ["A", "B"]`. -/
theorem c6_multi_select_partial_resolution :
    (∀ (cid : Nat) (tableTitle colTitle : String)
       (opts : List SelectionOptions) (value : List Nat),
      parse_nextcloud_table [⟨[.list cid value]⟩]
          ⟨⟨tableTitle, [.Selection cid colTitle .Multi opts]⟩⟩ =
        [[(colTitle, .list
          ((value.filter (fun v =>
              (opts.find? (fun o => o.id == v)).isSome)).map
            (fun v => (((opts.find? (fun o => o.id == v)).map
              (fun s => s.label)).getD ""))))]]) ∧
    parse_nextcloud_table [⟨[.list 2 [1, 99, 2]]⟩]
        ⟨⟨"t", [.Selection 2 "Funktion" .Multi [⟨1, "A"⟩, ⟨2, "B"⟩]]⟩⟩ =
      [[("Funktion", .list ["A", "B"])]] := by
  constructor
  · intro cid tableTitle colTitle opts value
    simp [parse_nextcloud_table, decodeCell_multi, hmInsert,
      filterMap_resolve_eq]
  · rfl

/-! ## Claim C7 -/

/-- Looking up the merged key after `mergeEntry`: an existing entry keeps
its scalar fields and gains the new roles at the end; a missing key is
inserted as given. -/
theorem alookup_mergeEntry_self (m : List (String × UserConfig))
    (ins : String) (cfg : UserConfig) :
    alookup (mergeEntry m ins cfg) ins =
      match alookup m ins with
      | some c => some { c with roles := c.roles ++ cfg.roles }
      | none => some cfg := by
  induction m with
  | nil => simp [mergeEntry, alookup]
  | cons p rest ih =>
    rcases p with ⟨k, c⟩
    by_cases hk : k = ins
    · subst hk
      simp [mergeEntry, alookup]
    · simp [mergeEntry, alookup, hk, ih]

/-- `mergeEntry` leaves every other key's binding unchanged. -/
theorem alookup_mergeEntry_ne (m : List (String × UserConfig))
    (ins : String) (cfg : UserConfig) (key : String) (h : ins ≠ key) :
    alookup (mergeEntry m ins cfg) key = alookup m key := by
  induction m with
  | nil => simp [mergeEntry, alookup, h]
  | cons p rest ih =>
    rcases p with ⟨k, c⟩
    by_cases hk : k = ins
    · subst hk
      simp [mergeEntry, alookup, h]
    · by_cases hky : k = key
      · subst hky
        simp [mergeEntry, alookup, hk]
      · simp [mergeEntry, alookup, hk, hky, ih]

/-- Lookup after the merging fold, for any accumulator: the entry for a
key collects, in order, the roles of every later pair with that key on
top of what the accumulator (or the first such pair) holds. -/
theorem alookup_merge_fold (uid : String) :
    ∀ (pairs acc : List (String × UserConfig)),
    alookup (pairs.foldl (fun map p => mergeEntry map p.1 p.2) acc) uid =
      match alookup acc uid, pairs.filter (fun p => p.1 == uid) with
      | some c, l => some { c with roles :=
          c.roles ++ ((l.map (fun p => p.2.roles)).flatten) }
      | none, [] => none
      | none, q :: rest => some { q.2 with roles :=
          q.2.roles ++ ((rest.map (fun p => p.2.roles)).flatten) } := by
  intro pairs
  induction pairs with
  | nil =>
    intro acc
    simp only [List.foldl_nil, List.filter_nil]
    cases h : alookup acc uid with
    | none => rfl
    | some c => simp
  | cons p rest ih =>
    intro acc
    rw [List.foldl_cons, ih (mergeEntry acc p.1 p.2)]
    rcases p with ⟨k, cfg⟩
    by_cases hk : k = uid
    · subst hk
      rw [alookup_mergeEntry_self, List.filter_cons]
      cases hacc : alookup acc k with
      | some c => simp [List.append_assoc]
      | none => simp
    · rw [alookup_mergeEntry_ne acc k cfg uid hk, List.filter_cons]
      simp [hk]

/-- Claim C7: when several decoded rows carry the same identifier, the
extractor emits one canonical user: for every key, the merged entry is
the first matching extracted record with the later matching records'
role lists appended in order (duplicates retained); concretely, merging
two records keyed "abc123" with roles `["X"]` and `["Y"]` keeps the
first record's scalar fields and yields roles `["X", "Y"]`. -/
theorem c7_identifier_merge :
    (∀ (rows : List RowMap) (uid : String),
      alookup (get_user_configs rows) uid =
        match (rows.filterMap extractUser).filter
            (fun p => p.1 == uid) with
        | [] => none
        | q :: rest => some { q.2 with roles :=
            q.2.roles ++ ((rest.map (fun p => p.2.roles)).flatten) }) ∧
    merge_user_configs
        [("abc123", { first_name := some "F1", last_name := some "L1",
                      email := some "e1", matrix_id := none,
                      roles := ["X"], enabled := true }),
         ("abc123", { first_name := some "F2", last_name := some "L2",
                      email := some "e2", matrix_id := none,
                      roles := ["Y"], enabled := false })] =
      [("abc123", { first_name := some "F1", last_name := some "L1",
                    email := some "e1", matrix_id := none,
                    roles := ["X", "Y"], enabled := true })] := by
  constructor
  · intro rows uid
    unfold get_user_configs merge_user_configs
    rw [alookup_merge_fold]
    cases h : (rows.filterMap extractUser).filter (fun p => p.1 == uid) with
    | nil => rfl
    | cons q rest => rfl
  · rfl

/-! ## Claim C8 -/

/-- Claim C8: the GitLab backend restricts the desired set before
reconciliation to users with an owner or maintainer role: every user the
pass adds to the group resolves from a desired entry having at least one
role equal to the configured owner or maintainer role, and every current
member that is not among the resolved eligible users is removed in the
same pass. -/
theorem c8_gitlab_role_gate :
    ∀ (cfg : GitLabConfig) (user_configs : List (String × UserConfig))
      (resolve : String → Option (List GitlabUser))
      (members : List GitlabUser),
    (∀ g ∈ gitlab_users_to_create
        (gitlab_resolved resolve (gitlab_eligible cfg user_configs))
        members,
      ∃ k u, (k, u) ∈ user_configs ∧
        (∃ r ∈ u.roles, r = cfg.maintainer_role ∨ r = cfg.owner_role) ∧
        ∃ l, resolve k = some l ∧ l.getLast? = some g) ∧
    (∀ m ∈ members,
      m ∉ gitlab_resolved resolve (gitlab_eligible cfg user_configs) →
      m ∈ gitlab_users_to_remove
        (gitlab_resolved resolve (gitlab_eligible cfg user_configs))
        members) := by
  intro cfg user_configs resolve members
  constructor
  · intro g hg
    have hu : g ∈ gitlab_resolved resolve
        (gitlab_eligible cfg user_configs) :=
      List.mem_of_mem_filter hg
    unfold gitlab_resolved at hu
    rcases List.mem_filterMap.mp hu with ⟨l, hl, hlast⟩
    rcases List.mem_filterMap.mp hl with ⟨pair, hpair, hres⟩
    have hp2 := List.mem_filter.mp hpair
    refine ⟨pair.1, pair.2, hp2.1, ?_, l, hres, hlast⟩
    have hroles := hp2.2
    simp only [List.any_eq_true, Bool.or_eq_true, beq_iff_eq] at hroles
    rcases hroles with ⟨r, hr, hcase⟩
    exact ⟨r, hr, hcase⟩
  · intro m hm hnot
    refine List.mem_filter.mpr ⟨hm, ?_⟩
    simp [hnot]

/-- Witness for claim C8: one eligible desired user "a" (owner role) and
one ineligible desired user "b"; the group currently contains only "b"\'s
record, so "a" is created and "b" is removed. -/
theorem c8_gitlab_role_gate_witness :
    ((⟨1, "a"⟩ : GitlabUser) ∈ gitlab_users_to_create
      (gitlab_resolved glResolve (gitlab_eligible glCfg glConfigs))
      [⟨2, "b"⟩]) ∧
    (∃ (k : String) (u : UserConfig), (k, u) ∈ glConfigs ∧
      (∃ r ∈ u.roles, r = glCfg.maintainer_role ∨ r = glCfg.owner_role) ∧
      ∃ l, glResolve k = some l ∧
        l.getLast? = some (⟨1, "a"⟩ : GitlabUser)) ∧
    ((⟨2, "b"⟩ : GitlabUser) ∈ gitlab_users_to_remove
      (gitlab_resolved glResolve (gitlab_eligible glCfg glConfigs))
      [⟨2, "b"⟩]) := by
  refine ⟨by decide, ?_, ?_⟩
  · exact (c8_gitlab_role_gate glCfg glConfigs glResolve
      [⟨2, "b"⟩]).1 ⟨1, "a"⟩ (by decide)
  · exact (c8_gitlab_role_gate glCfg glConfigs glResolve
      [⟨2, "b"⟩]).2 ⟨2, "b"⟩ (by decide) (by decide)

/-! ## Claim C9 -/

/-- Erasing one key leaves every other key's binding unchanged. -/
theorem hmGet_hmErase_ne (m : RowMap) (k key : String) (h : key ≠ k) :
    hmGet (hmErase m k) key = hmGet m key := by
  induction m with
  | nil => rfl
  | cons p rest ih =>
    rcases p with ⟨k', v⟩
    by_cases hp : k' = k
    · subst hp
      simp [hmErase, hmGet, List.filter_cons, Ne.symm h] at ih ⊢
      exact ih
    · by_cases hpk : k' = key
      · subst hpk
        simp [hmErase, hmGet, List.filter_cons, hp]
      · simp [hmErase, hmGet, List.filter_cons, hp, hpk] at ih ⊢
        exact ih

/-- Claim C9: a row whose "Fachschaft" cell is absent or not a String
cell is dropped in its entirety by the extractor, regardless of every
other field: "Fachschaft" is a mandatory admission field. -/
theorem c9_fachschaft_mandatory (b : RowMap)
    (h : ∀ s, hmGet b "Fachschaft" ≠ some (.str s)) :
    extractUser b = none := by
  have h4 : hmGet (hmErase (hmErase (hmErase (hmErase b "Vorname")
      "Nachname") "Funktionskennung") "Funktion") "Fachschaft" =
      hmGet b "Fachschaft" := by
    rw [hmGet_hmErase_ne _ _ _ (by decide),
      hmGet_hmErase_ne _ _ _ (by decide),
      hmGet_hmErase_ne _ _ _ (by decide),
      hmGet_hmErase_ne _ _ _ (by decide)]
  simp only [extractUser]
  split <;> try rfl
  split <;> try rfl
  split <;> try rfl
  split <;> try rfl
  split <;> try rfl
  split <;> try rfl
  next s heq =>
    exfalso
    rw [h4] at heq
    exact h s heq

/-- Witness for claim C9: a decoded row with identifier, first name,
last name and role list all present and well-typed but no "Fachschaft"
cell yields no user. -/
theorem c9_fachschaft_mandatory_witness :
    (∀ s, hmGet
        [("Funktionskennung", .str "jdoe"), ("Vorname", .str "Jane"),
         ("Nachname", .str "Doe"), ("Funktion", .list ["Admin"])]
        "Fachschaft" ≠ some (.str s)) ∧
    extractUser
        [("Funktionskennung", .str "jdoe"), ("Vorname", .str "Jane"),
         ("Nachname", .str "Doe"), ("Funktion", .list ["Admin"])] =
      none := by
  constructor
  · intro s
    simp [hmGet]
  · exact c9_fachschaft_mandatory _ (fun s => by simp [hmGet])

/-! ## Claim C10 -/

/-- A key satisfying `any` has a binding. -/
theorem alookup_some_of_any {α : Type} (l : List (String × α))
    (k : String) (h : l.any (fun p => p.1 == k) = true) :
    ∃ v, alookup l k = some v := by
  induction l with
  | nil => simp at h
  | cons p rest ih =>
    rcases p with ⟨k', v⟩
    by_cases hk : k' = k
    · subst hk
      exact ⟨v, by simp [alookup]⟩
    · simp only [List.any_cons, Bool.or_eq_true, beq_iff_eq] at h
      rcases h with h | h
      · exact absurd h hk
      · obtain ⟨v', hv⟩ := ih h
        exact ⟨v', by simp [alookup, hk, hv]⟩

/-- `update_users` succeeds and produces faithful bodies whenever every
listed user's username has a config entry. -/
theorem update_users_bodies_spec (ucfg : List (String × UserConfig)) :
    ∀ L : List KeycloakUser,
    (∀ u ∈ L, ∃ cfg, alookup ucfg u.username = some cfg) →
    ∃ bodies, update_users_bodies L ucfg = some bodies ∧
      ∀ p ∈ bodies, ∃ u ∈ L, p.1 = u.id ∧ p.2.username = u.username ∧
        ∃ cfg, alookup ucfg u.username = some cfg ∧
          p.2.firstName = cfg.first_name ∧
          p.2.lastName = cfg.last_name ∧
          p.2.email = cfg.email ∧ p.2.enabled = cfg.enabled := by
  intro L
  induction L with
  | nil => exact fun _ => ⟨[], rfl, by simp⟩
  | cons u rest ih =>
    intro hall
    obtain ⟨cfg, hcfg⟩ := hall u (by simp)
    obtain ⟨bs, hbs, hprop⟩ := ih (fun v hv => hall v (by simp [hv]))
    refine ⟨(u.id, update_user_body u cfg) :: bs, ?_, ?_⟩
    · simp [update_users_bodies, hcfg, hbs]
    · intro p hp
      rcases List.mem_cons.mp hp with rfl | hp2
      · exact ⟨u, by simp, rfl, rfl, cfg, hcfg, rfl, rfl, rfl, rfl⟩
      · obtain ⟨v, hv, hrest⟩ := hprop p hp2
        exact ⟨v, by simp [hv], hrest⟩

/-- Claim C10: the Keycloak update pass never changes an account's
username: for every desired map and actual user list, the bodies PUT by
`update_users` exist (every matched user has a config entry) and each
carries the existing provider-side username unchanged, together with the
desired first name, last name, email and enabled flag. -/
theorem c10_update_keeps_username :
    ∀ (user_configs : List (String × UserConfig))
      (keycloak_users : List KeycloakUser),
    ∃ bodies,
      update_users_bodies (users_to_update user_configs keycloak_users)
        user_configs = some bodies ∧
      ∀ p ∈ bodies,
        ∃ u ∈ users_to_update user_configs keycloak_users,
          p.1 = u.id ∧ p.2.username = u.username ∧
          ∃ cfg, alookup user_configs u.username = some cfg ∧
            p.2.firstName = cfg.first_name ∧
            p.2.lastName = cfg.last_name ∧
            p.2.email = cfg.email ∧ p.2.enabled = cfg.enabled := by
  intro ucfg kus
  refine update_users_bodies_spec ucfg _ ?_
  intro u hu
  exact alookup_some_of_any ucfg u.username (List.mem_filter.mp hu).2

/-- Witness for claim C10: a concrete matched user "a"; the produced
body keeps username "a" and takes the remaining fields from the desired
config. -/
theorem c10_update_keeps_username_witness :
    ∃ bodies,
      update_users_bodies
        (users_to_update [("a", mkConfig ["r1"])] [mkKcUser "1" "a"])
        [("a", mkConfig ["r1"])] = some bodies ∧
      ∀ p ∈ bodies,
        ∃ u ∈ users_to_update [("a", mkConfig ["r1"])] [mkKcUser "1" "a"],
          p.1 = u.id ∧ p.2.username = u.username ∧
          ∃ cfg, alookup [("a", mkConfig ["r1"])] u.username = some cfg ∧
            p.2.firstName = cfg.first_name ∧
            p.2.lastName = cfg.last_name ∧
            p.2.email = cfg.email ∧ p.2.enabled = cfg.enabled :=
  c10_update_keeps_username [("a", mkConfig ["r1"])] [mkKcUser "1" "a"]

end NVT
